import Mathlib

/-!
Shallow embedding of `src/modules/modulemanager.go` (package `modules`,
type `ModuleManager`): an in-memory registry of scraping modules with
JSON persistence, add/delete/refresh operations, and cached script files.

Effectful steps of the Go code (HTTP GET, JSON decode, file write/remove,
UUID generation) are modelled by environment oracles supplied as
arguments; each operation additionally returns the ordered trace of
file-system and persistence events it performs, mirroring the order of
the corresponding calls in the Go source.
-/

namespace Sorago

/-- Raw script bytes, as returned by io.ReadAll on the HTTP response body. -/
abbrev Script := List Nat

/-- The metadata document decoded from the remote JSON descriptor.
Fields are the ones the manager reads: SourceName, ScriptURL, Version
(spec section 3: source name, script URL, version string). -/
structure ModuleMetadata where
  sourceName : String
  scriptURL : String
  version : String
deriving DecidableEq, Repr

/-- One managed module record (Go struct ScrapingModule, fields as used by
modulemanager.go: ID, Metadata, LocalPath, MetadataURL, IsActive).
UUIDs are modelled as strings. -/
structure ScrapingModule where
  id : String
  metadata : ModuleMetadata
  localPath : String
  metadataURL : String
  isActive : Bool
deriving DecidableEq, Repr

/-- Outcome of os.Remove: success, a does-not-exist error (os.IsNotExist),
or any other failure. -/
inductive RemoveOutcome where
  | ok
  | notExist
  | otherFail
deriving DecidableEq, Repr

/-- File-system / persistence events, in the order the Go code performs
them.  fetchMeta and fetchScript are the two http.Get calls, writeFile is
os.WriteFile (with its success flag), removeFile is os.Remove (with its
outcome), save is SaveModules. -/
inductive Ev where
  | fetchMeta (url : String)
  | fetchScript (url : String)
  | writeFile (path : String) (data : Script) (ok : Bool)
  | removeFile (path : String) (outcome : RemoveOutcome)
  | save
deriving DecidableEq, Repr

/-- filepath.Join for a directory and a flat file name. -/
def joinPath (dir name : String) : String := dir ++ "/" ++ name

/-- Oracle for the network and the local disk during Add/Refresh.
fetchMeta url: none = transport failure of http.Get, some none = JSON
decode failure of the body, some (some md) = decoded metadata.
fetchScript url: none = transport failure, some none = io.ReadAll
failure, some (some bytes) = script body.
writeOk path: whether os.WriteFile at that path succeeds. -/
structure NetEnv where
  fetchMeta : String → Option (Option ModuleMetadata)
  fetchScript : String → Option (Option Script)
  writeOk : String → Bool

/-- Oracle for os.Remove during Delete. -/
structure FsEnv where
  removeResult : String → RemoveOutcome

/-- Errors returned by AddModule, one per return site:
alreadyExists = "module already exists", fetchErr = http.Get error,
parseErr = metadata decode error, readErr = io.ReadAll error,
ioErr = os.WriteFile error. -/
inductive AddErr where
  | alreadyExists
  | fetchErr
  | parseErr
  | readErr
  | ioErr
deriving DecidableEq, Repr

/-- Error returned by DeleteModule: "module not found". -/
inductive DeleteErr where
  | notFound
deriving DecidableEq, Repr

/-- Result of one AddModule call: the returned value or error, the
in-memory module list after the call, and the event trace. -/
structure AddOutcome where
  res : Except AddErr ScrapingModule
  modules : List ScrapingModule
  trace : List Ev
deriving Repr

/-- ModuleManager.AddModule.  freshFileBase and freshId are the two
uuid.New() results (line 96 for the file name, line 104 for the record
id); the Go code checks for a duplicate MetadataURL first, then fetches
and decodes the metadata, fetches and reads the script, writes the
script file, and only then appends the new record and saves. -/
def addModule (env : NetEnv) (freshId freshFileBase : String)
    (metadataURL storageDir : String) (l : List ScrapingModule) : AddOutcome :=
  if l.any (fun m => m.metadataURL = metadataURL) then
    ⟨.error .alreadyExists, l, []⟩
  else
    match env.fetchMeta metadataURL with
    | none => ⟨.error .fetchErr, l, [.fetchMeta metadataURL]⟩
    | some none => ⟨.error .parseErr, l, [.fetchMeta metadataURL]⟩
    | some (some md) =>
      match env.fetchScript md.scriptURL with
      | none =>
        ⟨.error .fetchErr, l, [.fetchMeta metadataURL, .fetchScript md.scriptURL]⟩
      | some none =>
        ⟨.error .readErr, l, [.fetchMeta metadataURL, .fetchScript md.scriptURL]⟩
      | some (some bytes) =>
        let fileName := freshFileBase ++ ".js"
        let scriptPath := joinPath storageDir fileName
        if env.writeOk scriptPath then
          let module : ScrapingModule :=
            ⟨freshId, md, fileName, metadataURL, false⟩
          ⟨.ok module, l ++ [module],
            [.fetchMeta metadataURL, .fetchScript md.scriptURL,
             .writeFile scriptPath bytes true, .save]⟩
        else
          ⟨.error .ioErr, l,
            [.fetchMeta metadataURL, .fetchScript md.scriptURL,
             .writeFile scriptPath bytes false]⟩

/-- Result of one DeleteModule call. -/
structure DeleteOutcome where
  res : Except DeleteErr Unit
  modules : List ScrapingModule
  trace : List Ev
deriving Repr

/-- The linear scan of DeleteModule (lines 122-135): find the first record
whose ID matches, attempt os.Remove of its script file (the outcome is
recorded but never blocks the removal; only a non-IsNotExist failure is
logged), and drop that record.  Returns none when no record matches. -/
def deleteScan (env : FsEnv) (moduleID storageDir : String) :
    List ScrapingModule → Option (List ScrapingModule × List Ev)
  | [] => none
  | m :: rest =>
    if m.id = moduleID then
      let scriptPath := joinPath storageDir m.localPath
      some (rest, [.removeFile scriptPath (env.removeResult scriptPath)])
    else
      match deleteScan env moduleID storageDir rest with
      | none => none
      | some (rest', evs) => some (m :: rest', evs)

/-- ModuleManager.DeleteModule: on a match, the record is removed and the
list saved; otherwise the error "module not found" is returned and
nothing happens. -/
def deleteModule (env : FsEnv) (moduleID storageDir : String)
    (l : List ScrapingModule) : DeleteOutcome :=
  match deleteScan env moduleID storageDir l with
  | none => ⟨.error .notFound, l, []⟩
  | some (l', evs) => ⟨.ok (), l', evs ++ [.save]⟩

/-- One iteration of the RefreshModules loop (lines 175-215) on the record
mod: fetch and decode metadata from mod.MetadataURL (failure: continue,
record untouched); if the version is unchanged, continue; otherwise fetch
and read the script (failure: continue), write it over the existing file
at mod.LocalPath (failure: continue), and only then replace the record's
Metadata with the new metadata. -/
def refreshStep (env : NetEnv) (storageDir : String) (mod : ScrapingModule) :
    ScrapingModule × List Ev :=
  match env.fetchMeta mod.metadataURL with
  | none => (mod, [.fetchMeta mod.metadataURL])
  | some none => (mod, [.fetchMeta mod.metadataURL])
  | some (some newMetadata) =>
    if newMetadata.version = mod.metadata.version then
      (mod, [.fetchMeta mod.metadataURL])
    else
      match env.fetchScript newMetadata.scriptURL with
      | none =>
        (mod, [.fetchMeta mod.metadataURL, .fetchScript newMetadata.scriptURL])
      | some none =>
        (mod, [.fetchMeta mod.metadataURL, .fetchScript newMetadata.scriptURL])
      | some (some scriptData) =>
        let scriptPath := joinPath storageDir mod.localPath
        if env.writeOk scriptPath then
          ({ mod with metadata := newMetadata },
           [.fetchMeta mod.metadataURL, .fetchScript newMetadata.scriptURL,
            .writeFile scriptPath scriptData true])
        else
          (mod,
           [.fetchMeta mod.metadataURL, .fetchScript newMetadata.scriptURL,
            .writeFile scriptPath scriptData false])

/-- ModuleManager.RefreshModules: every record is processed in sequence by
refreshStep (the loop writes only m.modules[i] at iteration i, so each
record is processed independently of the others), and SaveModules runs
exactly once, after the loop. -/
def refreshModules (env : NetEnv) (storageDir : String)
    (l : List ScrapingModule) : List ScrapingModule × List Ev :=
  let results := l.map (refreshStep env storageDir)
  (results.map Prod.fst, (results.map Prod.snd).flatten ++ [Ev.save])

/-! ### JSON persistence

SaveModules serializes the list with json.MarshalIndent and writes it to
the modules.json file; LoadModules reads that file and parses it with
json.Unmarshal.  The Go struct declarations carrying the JSON field tags
are not part of this source tree, so the serialized shape is modelled at
the JSON-value level from the spec.  The unmarshalling model follows
encoding/json semantics: syntax is validated before the target is
touched, a type mismatch saves an UnmarshalTypeError while decoding
continues best-effort (mismatched slots keep their zero value), and a
top-level array always replaces the target slice. -/

/-- A JSON value: strings, numbers, booleans, arrays, objects. -/
inductive Json where
  | str (s : String)
  | num (n : Int)
  | bool (b : Bool)
  | arr (xs : List Json)
  | obj (fields : List (String × Json))
deriving Repr

/-- First field of a JSON object with the given key, as json.Unmarshal
matches object keys to struct fields. -/
def jLookup (fields : List (String × Json)) (k : String) : Option Json :=
  (fields.find? (fun p => p.1 = k)).map Prod.snd

/-- A string field; a missing or non-string field keeps the zero value ""
(spec: missing optional fields keep their zero value). -/
def strOf (fields : List (String × Json)) (k : String) : String :=
  match jLookup fields k with
  | some (.str s) => s
  | _ => ""

/-- A boolean field; missing keeps the zero value false. -/
def boolOf (fields : List (String × Json)) (k : String) : Bool :=
  match jLookup fields k with
  | some (.bool b) => b
  | _ => false

/-- Modelled from the spec: the JSON encoding of a metadata document
(source name, script URL, version string); the Go ModuleMetadata struct
declaration with its field tags is not in this source tree. -/
def encodeMetadata (md : ModuleMetadata) : Json :=
  .obj [("sourceName", .str md.sourceName),
        ("scriptURL", .str md.scriptURL),
        ("version", .str md.version)]

/-- The zero value of the metadata struct. -/
def zeroMetadata : ModuleMetadata := ⟨"", "", ""⟩

/-- The zero value of a record, as left by json.Unmarshal for an array
element it could not decode. -/
def zeroModule : ScrapingModule := ⟨"", zeroMetadata, "", "", false⟩

/-- Whether a present field of the given key mismatches the string type.
json saves an UnmarshalTypeError for such a field and skips it; a missing
field is no error and keeps the zero value. -/
def strFieldErr (fields : List (String × Json)) (k : String) : Bool :=
  match jLookup fields k with
  | none => false
  | some (.str _) => false
  | some _ => true

/-- Whether a present field of the given key mismatches the bool type. -/
def boolFieldErr (fields : List (String × Json)) (k : String) : Bool :=
  match jLookup fields k with
  | none => false
  | some (.bool _) => false
  | some _ => true

/-- Modelled from the spec (field names, the Go struct declarations being
absent from this source tree), with encoding/json semantics: a metadata
value decodes field-wise, mismatched or missing fields keeping their zero
value; the flag records whether a type error was saved.  A non-object
value mismatches the struct wholesale and leaves the zero value. -/
def unmarshalMetadata (j : Json) : ModuleMetadata × Bool :=
  match j with
  | .obj fields =>
    (⟨strOf fields "sourceName", strOf fields "scriptURL",
      strOf fields "version"⟩,
     strFieldErr fields "sourceName" || strFieldErr fields "scriptURL" ||
       strFieldErr fields "version")
  | _ => (zeroMetadata, true)

/-- The metadata field of a record object: missing keeps the zero value
with no error, present is unmarshalled. -/
def metadataField (fields : List (String × Json)) : ModuleMetadata × Bool :=
  match jLookup fields "metadata" with
  | none => (zeroMetadata, false)
  | some mj => unmarshalMetadata mj

/-- Modelled from the spec: the JSON encoding of one module record
(identifier as the string form of a UUID, metadata object, local
filename, original metadata URL, active flag — spec section 6). -/
def encodeModule (m : ScrapingModule) : Json :=
  .obj [("id", .str m.id),
        ("metadata", encodeMetadata m.metadata),
        ("localPath", .str m.localPath),
        ("metadataURL", .str m.metadataURL),
        ("isActive", .bool m.isActive)]

/-- Unmarshalling one array element into a record: an object decodes
field-wise (zero values where mismatched or missing), any other value
saves a type error and leaves the element's zero value; in both cases
json continues with the remaining elements. -/
def unmarshalModule (j : Json) : ScrapingModule × Bool :=
  match j with
  | .obj fields =>
    (⟨strOf fields "id", (metadataField fields).1, strOf fields "localPath",
      strOf fields "metadataURL", boolOf fields "isActive"⟩,
     strFieldErr fields "id" || (metadataField fields).2 ||
       strFieldErr fields "localPath" || strFieldErr fields "metadataURL" ||
       boolFieldErr fields "isActive")
  | _ => (zeroModule, true)

/-- The persisted snapshot: a JSON array of record objects. -/
def encodeModules (l : List ScrapingModule) : Json :=
  .arr (l.map encodeModule)

/-- json.Unmarshal(data, &modules) on syntactically valid JSON: a
top-level array always replaces the slice with the element-wise
best-effort decode, returning — after the whole array is processed — the
first saved error if any; a top-level value of any other type saves a
type error and leaves the slice untouched. -/
def unmarshalModules (data : Json) (prev : List ScrapingModule) :
    List ScrapingModule × Bool :=
  match data with
  | .arr xs =>
    (xs.map (fun j => (unmarshalModule j).1),
     xs.any (fun j => (unmarshalModule j).2))
  | _ => (prev, true)

/-- The file system seen by Save/Load: content of the persistence file
per path. -/
abbrev FileStore := String → Option Json

/-- ModuleManager.SaveModules: serialize the list and overwrite the
persistence file (writeOk false models an os.WriteFile failure, which is
logged and leaves the old file). -/
def saveModules (writeOk : Bool) (l : List ScrapingModule)
    (path : String) (fs : FileStore) : FileStore :=
  if writeOk then fun p => if p = path then some (encodeModules l) else fs p
  else fs

/-- Outcome of reading the persistence file: the file does not exist,
another read failure, content that is not syntactically valid JSON
(json.Unmarshal validates syntax before touching the target), or a
parsed JSON value. -/
inductive ReadResult where
  | notExist
  | readFail
  | invalidSyntax
  | ok (data : Json)
deriving Repr

/-- ModuleManager.LoadModules (lines 35-50): a missing file returns
silently, any other read failure warns and returns, syntactically
invalid JSON warns with the list untouched, and otherwise the list
becomes whatever json.Unmarshal left in m.modules — a saved decode
error only triggers the warning, it does not restore the list. -/
def loadModules (r : ReadResult) (prev : List ScrapingModule) :
    List ScrapingModule :=
  match r with
  | .notExist => prev
  | .readFail => prev
  | .invalidSyntax => prev
  | .ok data => (unmarshalModules data prev).1

/-- Load against the modelled file store: a present file is
unmarshalled, an absent one leaves the list. -/
def loadModulesFS (fs : FileStore) (path : String)
    (prev : List ScrapingModule) : List ScrapingModule :=
  match fs path with
  | none => loadModules .notExist prev
  | some data => loadModules (.ok data) prev

/-- The registry states reachable from the empty registry by the three
mutating operations AddModule, DeleteModule and RefreshModules, under
arbitrary environments. -/
inductive Reachable : List ScrapingModule → Prop
  | empty : Reachable []
  | add (env : NetEnv) (freshId freshFileBase url dir : String)
      {l : List ScrapingModule} :
      Reachable l → Reachable (addModule env freshId freshFileBase url dir l).modules
  | del (env : FsEnv) (moduleID dir : String) {l : List ScrapingModule} :
      Reachable l → Reachable (deleteModule env moduleID dir l).modules
  | refresh (env : NetEnv) (dir : String) {l : List ScrapingModule} :
      Reachable l → Reachable (refreshModules env dir l).1

/-- The uniqueness invariant: no two records share a metadataURL. -/
def uniqueURLs (l : List ScrapingModule) : Prop :=
  l.Pairwise (fun a b => a.metadataURL ≠ b.metadataURL)

/-! ### Concrete sample data

Small concrete environments and records used to evaluate the operations
on closed inputs. -/

/-- Sample metadata at version "1". -/
def mdA : ModuleMetadata := ⟨"A", "http://x/s1", "1"⟩

/-- Sample metadata at version "2" (same source, bumped version). -/
def mdA2 : ModuleMetadata := ⟨"A", "http://x/s1", "2"⟩

/-- A sample registry record holding mdA. -/
def modA : ScrapingModule := ⟨"id-a", mdA, "aaaa.js", "http://x/meta", false⟩

/-- A second record sharing modA's identifier but a different URL and
file, as could only arise from an externally produced persistence file. -/
def modDup : ScrapingModule := ⟨"id-a", mdA2, "bbbb.js", "http://x/meta2", false⟩

/-- A network where every metadata fetch yields mdA and every script
fetch succeeds, and all writes succeed. -/
def envA : NetEnv := ⟨fun _ => some (some mdA), fun _ => some (some [1, 2]), fun _ => true⟩

/-- A network serving the bumped metadata mdA2 with script body [7]. -/
def envA2 : NetEnv := ⟨fun _ => some (some mdA2), fun _ => some (some [7]), fun _ => true⟩

/-- A network where every fetch fails at the transport layer and every
write fails. -/
def envDown : NetEnv := ⟨fun _ => none, fun _ => none, fun _ => false⟩

/-- A disk where os.Remove always succeeds. -/
def fsOk : FsEnv := ⟨fun _ => .ok⟩

/-- A disk where os.Remove always fails with a non-IsNotExist error. -/
def fsBroken : FsEnv := ⟨fun _ => .otherFail⟩

/-! ### Lemmas and claim theorems -/

lemma unmarshalModule_encode (m : ScrapingModule) :
    unmarshalModule (encodeModule m) = (m, false) := rfl

lemma unmarshalModules_encode (l : List ScrapingModule)
    (prev : List ScrapingModule) :
    unmarshalModules (encodeModules l) prev = (l, false) := by
  have h1 : (l.map encodeModule).map (fun j => (unmarshalModule j).1) = l := by
    rw [List.map_map]
    have h : l.map ((fun j => (unmarshalModule j).1) ∘ encodeModule) =
        l.map id :=
      List.map_congr_left (fun a _ => by
        simp [Function.comp, unmarshalModule_encode])
    rw [h, List.map_id]
  have h2 : (l.map encodeModule).any (fun j => (unmarshalModule j).2) = false := by
    rw [List.any_eq_false]
    intro j hj
    rcases List.mem_map.mp hj with ⟨m, _, rfl⟩
    simp [unmarshalModule_encode]
  simp [unmarshalModules, encodeModules, h1, h2]

/-- C8: persistence round-trip — for every in-memory record list, a
successful Save followed by a fresh Load of the written file reproduces
the same record list (same identifiers, metadata, local paths, metadata
URLs, active flags, in the same order). -/
theorem save_load_roundtrip (l : List ScrapingModule) (path : String) (fs : FileStore) :
    loadModulesFS (saveModules true l path fs) path [] = l := by
  simp [loadModulesFS, saveModules, loadModules, unmarshalModules_encode]

lemma deleteScan_none (env : FsEnv) (moduleID dir : String)
    (l : List ScrapingModule) (h : ∀ m ∈ l, m.id ≠ moduleID) :
    deleteScan env moduleID dir l = none := by
  induction l with
  | nil => rfl
  | cons m rest ih =>
    have hm : ¬ m.id = moduleID := h m (List.mem_cons_self m rest)
    have hrest := ih (fun x hx => h x (List.mem_cons_of_mem m hx))
    simp [deleteScan, hm, hrest]

lemma deleteScan_prefix (env : FsEnv) (moduleID dir : String)
    (pre : List ScrapingModule) (mod : ScrapingModule) (post : List ScrapingModule)
    (hpre : ∀ x ∈ pre, x.id ≠ moduleID) (hmod : mod.id = moduleID) :
    deleteScan env moduleID dir (pre ++ mod :: post) =
      some (pre ++ post,
        [Ev.removeFile (joinPath dir mod.localPath)
          (env.removeResult (joinPath dir mod.localPath))]) := by
  induction pre with
  | nil => simp [deleteScan, hmod]
  | cons x xs ih =>
    have hx : ¬ x.id = moduleID := hpre x (List.mem_cons_self x xs)
    have ih' := ih (fun y hy => hpre y (List.mem_cons_of_mem x hy))
    simp [deleteScan, hx, ih']

/-- C4: Delete with a present id removes exactly the first matching
record and returns success, attempting to remove its cached script file
first (whatever the removal outcome — success, missing file, or another
failure — the record is still removed, for every FsEnv); with an absent
id it returns NotFound and performs no list change and no file event. -/
theorem deleteModule_spec :
    (∀ (env : FsEnv) (moduleID dir : String) (pre : List ScrapingModule)
       (mod : ScrapingModule) (post : List ScrapingModule),
       mod.id = moduleID → (∀ x ∈ pre, x.id ≠ moduleID) →
       (deleteModule env moduleID dir (pre ++ mod :: post)).res = .ok () ∧
       (deleteModule env moduleID dir (pre ++ mod :: post)).modules = pre ++ post ∧
       (deleteModule env moduleID dir (pre ++ mod :: post)).trace =
         [Ev.removeFile (joinPath dir mod.localPath)
            (env.removeResult (joinPath dir mod.localPath)), Ev.save])
  ∧ (∀ (env : FsEnv) (moduleID dir : String) (l : List ScrapingModule),
       (∀ m ∈ l, m.id ≠ moduleID) →
       (deleteModule env moduleID dir l).res = .error .notFound ∧
       (deleteModule env moduleID dir l).modules = l ∧
       (deleteModule env moduleID dir l).trace = []) := by
  constructor
  · intro env moduleID dir pre mod post hmod hpre
    have h := deleteScan_prefix env moduleID dir pre mod post hpre hmod
    refine ⟨?_, ?_, ?_⟩ <;> simp [deleteModule, h]
  · intro env moduleID dir l h
    have hn := deleteScan_none env moduleID dir l h
    refine ⟨?_, ?_, ?_⟩ <;> simp [deleteModule, hn]

/-- Witness for C4: deleting the only record succeeds even when
os.Remove fails with a non-IsNotExist error, and deleting an unknown id
returns NotFound leaving the list untouched. -/
theorem deleteModule_spec_witness :
    (modA.id = "id-a" ∧ (∀ x ∈ ([] : List ScrapingModule), x.id ≠ "id-a") ∧
      (deleteModule fsBroken "id-a" "d" ([] ++ modA :: [])).res = .ok () ∧
      (deleteModule fsBroken "id-a" "d" ([] ++ modA :: [])).modules = [] ++ []) ∧
    ((∀ m ∈ [modA], m.id ≠ "id-x") ∧
      (deleteModule fsBroken "id-x" "d" [modA]).res = .error .notFound ∧
      (deleteModule fsBroken "id-x" "d" [modA]).modules = [modA] ∧
      (deleteModule fsBroken "id-x" "d" [modA]).trace = []) := by
  have h1 := deleteModule_spec.1 fsBroken "id-a" "d" [] modA [] rfl (by simp)
  have h2 := deleteModule_spec.2 fsBroken "id-x" "d" [modA] (by decide)
  exact ⟨⟨rfl, by simp, h1.1, h1.2.1⟩, ⟨by decide, h2⟩⟩

/-- C10: Delete removes at most one record per call — with duplicates of
the same identifier in the list, only the first match in list order is
removed, each later duplicate stays (the match count drops by exactly
one), and the relative order of the remaining records is preserved. -/
theorem deleteModule_first_match_only
    (env : FsEnv) (moduleID dir : String) (pre : List ScrapingModule)
    (mod : ScrapingModule) (post : List ScrapingModule)
    (hmod : mod.id = moduleID) (hpre : ∀ x ∈ pre, x.id ≠ moduleID) :
    (deleteModule env moduleID dir (pre ++ mod :: post)).modules = pre ++ post ∧
    (pre ++ post).countP (fun x => x.id = moduleID) + 1 =
      (pre ++ mod :: post).countP (fun x => x.id = moduleID) ∧
    (∀ x ∈ post, x ∈ (deleteModule env moduleID dir (pre ++ mod :: post)).modules) := by
  have h := deleteScan_prefix env moduleID dir pre mod post hpre hmod
  refine ⟨by simp [deleteModule, h], ?_, ?_⟩
  · simp [List.countP_append, List.countP_cons, hmod]
    ring
  · intro x hx
    simp [deleteModule, h]
    exact Or.inr hx

/-- Witness for C10: a list with two records sharing the id keeps the
second one after Delete. -/
theorem deleteModule_first_match_only_witness :
    modDup.id = "id-a" ∧
    (deleteModule fsOk "id-a" "d" ([] ++ modA :: [modDup])).modules = [] ++ [modDup] ∧
    (∀ x ∈ [modDup], x ∈ (deleteModule fsOk "id-a" "d" ([] ++ modA :: [modDup])).modules) := by
  have h := deleteModule_first_match_only fsOk "id-a" "d" [] modA [modDup] rfl (by simp)
  exact ⟨rfl, h.1, h.2.2⟩

lemma addModule_dup (env : NetEnv) (fid fb url dir : String)
    (l : List ScrapingModule) (h : l.any (fun x => x.metadataURL = url) = true) :
    addModule env fid fb url dir l = ⟨.error .alreadyExists, l, []⟩ := by
  simp [addModule, h]

lemma addModule_cases (env : NetEnv) (fid fb url dir : String)
    (l : List ScrapingModule) :
    (l.any (fun x => x.metadataURL = url) = true ∧
      addModule env fid fb url dir l = ⟨.error .alreadyExists, l, []⟩) ∨
    (l.any (fun x => x.metadataURL = url) = false ∧
      (∃ e, (addModule env fid fb url dir l).res = .error e ∧ e ≠ .alreadyExists) ∧
      (addModule env fid fb url dir l).modules = l ∧
      Ev.save ∉ (addModule env fid fb url dir l).trace) ∨
    (l.any (fun x => x.metadataURL = url) = false ∧
      ∃ m, (addModule env fid fb url dir l).res = .ok m ∧
        m.metadataURL = url ∧
        (addModule env fid fb url dir l).modules = l ++ [m]) := by
  by_cases hdup : l.any (fun x => x.metadataURL = url) = true
  · exact Or.inl ⟨hdup, by simp [addModule, hdup]⟩
  · have hdup' : l.any (fun x => x.metadataURL = url) = false := by
      simpa using hdup
    cases hm : env.fetchMeta url with
    | none =>
      refine Or.inr (Or.inl ⟨hdup', ⟨.fetchErr, ?_, by simp⟩, ?_, ?_⟩) <;>
        simp [addModule, hdup', hm]
    | some o =>
      cases o with
      | none =>
        refine Or.inr (Or.inl ⟨hdup', ⟨.parseErr, ?_, by simp⟩, ?_, ?_⟩) <;>
          simp [addModule, hdup', hm]
      | some md =>
        cases hs : env.fetchScript md.scriptURL with
        | none =>
          refine Or.inr (Or.inl ⟨hdup', ⟨.fetchErr, ?_, by simp⟩, ?_, ?_⟩) <;>
            simp [addModule, hdup', hm, hs]
        | some o2 =>
          cases o2 with
          | none =>
            refine Or.inr (Or.inl ⟨hdup', ⟨.readErr, ?_, by simp⟩, ?_, ?_⟩) <;>
              simp [addModule, hdup', hm, hs]
          | some bytes =>
            by_cases hw : env.writeOk (joinPath dir (fb ++ ".js")) = true
            · exact Or.inr (Or.inr ⟨hdup', ⟨fid, md, fb ++ ".js", url, false⟩,
                by simp [addModule, hdup', hm, hs, hw], rfl,
                by simp [addModule, hdup', hm, hs, hw]⟩)
            · have hw' : env.writeOk (joinPath dir (fb ++ ".js")) = false := by
                simpa using hw
              refine Or.inr (Or.inl ⟨hdup', ⟨.ioErr, ?_, by simp⟩, ?_, ?_⟩) <;>
                simp [addModule, hdup', hm, hs, hw']

lemma addModule_ok_inv (env : NetEnv) (fid fb url dir : String)
    (l : List ScrapingModule) (m : ScrapingModule)
    (h : (addModule env fid fb url dir l).res = .ok m) :
    l.any (fun x => x.metadataURL = url) = false ∧
    ∃ md bytes,
      env.fetchMeta url = some (some md) ∧
      env.fetchScript md.scriptURL = some (some bytes) ∧
      env.writeOk (joinPath dir (fb ++ ".js")) = true ∧
      m = ⟨fid, md, fb ++ ".js", url, false⟩ ∧
      (addModule env fid fb url dir l).modules = l ++ [m] ∧
      (addModule env fid fb url dir l).trace =
        [.fetchMeta url, .fetchScript md.scriptURL,
         .writeFile (joinPath dir (fb ++ ".js")) bytes true, .save] := by
  by_cases hdup : l.any (fun x => x.metadataURL = url) = true
  · simp [addModule, hdup] at h
  · have hdup' : l.any (fun x => x.metadataURL = url) = false := by
      simpa using hdup
    cases hm : env.fetchMeta url with
    | none => simp [addModule, hdup', hm] at h
    | some o =>
      cases o with
      | none => simp [addModule, hdup', hm] at h
      | some md =>
        cases hs : env.fetchScript md.scriptURL with
        | none => simp [addModule, hdup', hm, hs] at h
        | some o2 =>
          cases o2 with
          | none => simp [addModule, hdup', hm, hs] at h
          | some bytes =>
            by_cases hw : env.writeOk (joinPath dir (fb ++ ".js")) = true
            · have hmod : m = ⟨fid, md, fb ++ ".js", url, false⟩ := by
                simp [addModule, hdup', hm, hs, hw] at h
                exact h.symm
              exact ⟨hdup', md, bytes, rfl, hs, hw, hmod,
                by simp [addModule, hdup', hm, hs, hw, hmod],
                by simp [addModule, hdup', hm, hs, hw]⟩
            · have hw' : env.writeOk (joinPath dir (fb ++ ".js")) = false := by
                simpa using hw
              simp [addModule, hdup', hm, hs, hw'] at h

lemma refreshStep_fst (env : NetEnv) (dir : String) (m : ScrapingModule) :
    (refreshStep env dir m).1 =
      { m with metadata := (refreshStep env dir m).1.metadata } := by
  cases hm : env.fetchMeta m.metadataURL with
  | none => simp [refreshStep, hm]
  | some o =>
    cases o with
    | none => simp [refreshStep, hm]
    | some md =>
      by_cases hv : md.version = m.metadata.version
      · simp [refreshStep, hm, hv]
      · cases hs : env.fetchScript md.scriptURL with
        | none => simp [refreshStep, hm, hv, hs]
        | some o2 =>
          cases o2 with
          | none => simp [refreshStep, hm, hv, hs]
          | some bytes =>
            by_cases hw : env.writeOk (joinPath dir m.localPath) = true
            · simp [refreshStep, hm, hv, hs, hw]
            · have hw' : env.writeOk (joinPath dir m.localPath) = false := by
                simpa using hw
              simp [refreshStep, hm, hv, hs, hw']

lemma refreshStep_id (env : NetEnv) (dir : String) (m : ScrapingModule) :
    (refreshStep env dir m).1.id = m.id := by
  rw [refreshStep_fst env dir m]

lemma refreshStep_localPath (env : NetEnv) (dir : String) (m : ScrapingModule) :
    (refreshStep env dir m).1.localPath = m.localPath := by
  rw [refreshStep_fst env dir m]

lemma refreshStep_metadataURL (env : NetEnv) (dir : String) (m : ScrapingModule) :
    (refreshStep env dir m).1.metadataURL = m.metadataURL := by
  rw [refreshStep_fst env dir m]

lemma refreshStep_isActive (env : NetEnv) (dir : String) (m : ScrapingModule) :
    (refreshStep env dir m).1.isActive = m.isActive := by
  rw [refreshStep_fst env dir m]

lemma refreshStep_no_save (env : NetEnv) (dir : String) (m : ScrapingModule) :
    Ev.save ∉ (refreshStep env dir m).2 := by
  cases hm : env.fetchMeta m.metadataURL with
  | none => simp [refreshStep, hm]
  | some o =>
    cases o with
    | none => simp [refreshStep, hm]
    | some md =>
      by_cases hv : md.version = m.metadata.version
      · simp [refreshStep, hm, hv]
      · cases hs : env.fetchScript md.scriptURL with
        | none => simp [refreshStep, hm, hv, hs]
        | some o2 =>
          cases o2 with
          | none => simp [refreshStep, hm, hv, hs]
          | some bytes =>
            by_cases hw : env.writeOk (joinPath dir m.localPath) = true
            · simp [refreshStep, hm, hv, hs, hw]
            · have hw' : env.writeOk (joinPath dir m.localPath) = false := by
                simpa using hw
              simp [refreshStep, hm, hv, hs, hw']

lemma refreshModules_fst (env : NetEnv) (dir : String) (l : List ScrapingModule) :
    (refreshModules env dir l).1 = l.map (fun m => (refreshStep env dir m).1) := by
  simp [refreshModules, List.map_map]

lemma refreshModules_save_count (env : NetEnv) (dir : String)
    (l : List ScrapingModule) :
    ((refreshModules env dir l).2.count Ev.save) = 1 := by
  have h0 : List.count Ev.save (List.map (Prod.snd ∘ refreshStep env dir) l).flatten = 0 := by
    rw [List.count_eq_zero]
    intro hmem
    rcases List.mem_flatten.mp hmem with ⟨tr, htr, hin⟩
    rcases List.mem_map.mp htr with ⟨m, _, rfl⟩
    exact refreshStep_no_save env dir m hin
  simp [refreshModules, List.count_append, List.map_map, h0]

lemma refreshModules_last (env : NetEnv) (dir : String) (l : List ScrapingModule) :
    (refreshModules env dir l).2.getLast? = some Ev.save := by
  simp [refreshModules]

lemma addModule_uniqueURLs (env : NetEnv) (fid fb url dir : String)
    (l : List ScrapingModule) (h : uniqueURLs l) :
    uniqueURLs (addModule env fid fb url dir l).modules := by
  rcases addModule_cases env fid fb url dir l with
    ⟨_, heq⟩ | ⟨_, _, hmods, _⟩ | ⟨hany, m, _, hurl, hmods⟩
  · rw [heq]; exact h
  · rw [hmods]; exact h
  · rw [hmods]
    have hall : ∀ a ∈ l, ¬ a.metadataURL = url := by
      simpa [List.any_eq_false] using hany
    rw [uniqueURLs, List.pairwise_append]
    refine ⟨h, by simp, fun a ha b hb => ?_⟩
    rcases List.mem_singleton.mp hb with rfl
    rw [hurl]
    exact hall a ha

lemma deleteScan_sublist (env : FsEnv) (moduleID dir : String) :
    ∀ (l l' : List ScrapingModule) (evs : List Ev),
      deleteScan env moduleID dir l = some (l', evs) → List.Sublist l' l := by
  intro l
  induction l with
  | nil => intro l' evs h; simp [deleteScan] at h
  | cons m rest ih =>
    intro l' evs h
    by_cases hm : m.id = moduleID
    · simp [deleteScan, hm] at h
      exact h.1 ▸ (List.Sublist.cons m (List.Sublist.refl rest))
    · cases hscan : deleteScan env moduleID dir rest with
      | none => simp [deleteScan, hm, hscan] at h
      | some p =>
        obtain ⟨rest', evs'⟩ := p
        simp [deleteScan, hm, hscan] at h
        exact h.1 ▸ List.Sublist.cons₂ m (ih rest' evs' hscan)

lemma deleteModule_uniqueURLs (env : FsEnv) (moduleID dir : String)
    (l : List ScrapingModule) (h : uniqueURLs l) :
    uniqueURLs (deleteModule env moduleID dir l).modules := by
  unfold deleteModule
  cases hscan : deleteScan env moduleID dir l with
  | none => exact h
  | some p =>
    obtain ⟨l', evs⟩ := p
    have hsub := deleteScan_sublist env moduleID dir l l' evs hscan
    exact List.Pairwise.sublist hsub h

lemma refreshModules_uniqueURLs (env : NetEnv) (dir : String)
    (l : List ScrapingModule) (h : uniqueURLs l) :
    uniqueURLs (refreshModules env dir l).1 := by
  rw [refreshModules_fst, uniqueURLs, List.pairwise_map]
  refine h.imp ?_
  intro a b hab
  simpa [refreshStep_metadataURL] using hab

lemma reachable_uniqueURLs (l : List ScrapingModule) (h : Reachable l) :
    uniqueURLs l := by
  induction h with
  | empty => exact List.Pairwise.nil
  | add env fid fb url dir _ ih => exact addModule_uniqueURLs env fid fb url dir _ ih
  | del env mid dir _ ih => exact deleteModule_uniqueURLs env mid dir _ ih
  | refresh env dir _ ih => exact refreshModules_uniqueURLs env dir _ ih

/-- C1: Add rejects a metadataURL equal (by exact string comparison, no
normalization) to an existing record's metadataURL with AlreadyExists and
leaves the list unchanged; with no exact match AlreadyExists is never
returned (so URLs differing only by a trailing slash are distinct); and
in every state reachable by Add/Delete/Refresh from the empty registry no
two records share a metadataURL. -/
theorem addModule_unique_metadataURL :
    (∀ (env : NetEnv) (fid fb url dir : String) (l : List ScrapingModule),
       l.any (fun x => x.metadataURL = url) = true →
       (addModule env fid fb url dir l).res = .error .alreadyExists ∧
       (addModule env fid fb url dir l).modules = l) ∧
    (∀ (env : NetEnv) (fid fb url dir : String) (l : List ScrapingModule),
       l.any (fun x => x.metadataURL = url) = false →
       (addModule env fid fb url dir l).res ≠ .error .alreadyExists) ∧
    (∀ l, Reachable l → uniqueURLs l) := by
  refine ⟨?_, ?_, fun l h => reachable_uniqueURLs l h⟩
  · intro env fid fb url dir l h
    rw [addModule_dup env fid fb url dir l h]
    exact ⟨rfl, rfl⟩
  · intro env fid fb url dir l h hc
    rcases addModule_cases env fid fb url dir l with
      ⟨ht, _⟩ | ⟨_, ⟨e, he, hne⟩, _, _⟩ | ⟨_, m, hm, _, _⟩
    · rw [h] at ht; cases ht
    · have h2 := he.symm.trans hc
      injection h2 with h3
      exact hne h3
    · have h2 := hm.symm.trans hc
      cases h2

/-- Witness for C1: a duplicate URL is rejected, the same URL with a
trailing slash added is not treated as a duplicate, and the empty
reachable state has pairwise-distinct URLs. -/
theorem addModule_unique_metadataURL_witness :
    ([modA].any (fun x => x.metadataURL = "http://x/meta") = true ∧
      (addModule envA "i2" "f2" "http://x/meta" "d" [modA]).res = .error .alreadyExists ∧
      (addModule envA "i2" "f2" "http://x/meta" "d" [modA]).modules = [modA]) ∧
    ([modA].any (fun x => x.metadataURL = "http://x/meta/") = false ∧
      (addModule envA "i3" "f3" "http://x/meta/" "d" [modA]).res ≠ .error .alreadyExists) ∧
    (Reachable ([] : List ScrapingModule) ∧ uniqueURLs ([] : List ScrapingModule)) := by
  refine ⟨⟨by decide, ?_⟩, ⟨by decide, ?_⟩, Reachable.empty, ?_⟩
  · exact addModule_unique_metadataURL.1 envA "i2" "f2" "http://x/meta" "d" [modA] (by decide)
  · exact addModule_unique_metadataURL.2.1 envA "i3" "f3" "http://x/meta/" "d" [modA] (by decide)
  · exact addModule_unique_metadataURL.2.2 [] Reachable.empty

/-- C2: every successful Add appends exactly one new record at the end of
the list — carrying the fresh identifier, the metadata decoded from the
fetched document, a fresh filename of the form base ++ ".js" with the
128-bit random base, the original metadataURL, and isActive = false — and
the call ends with the Save persistence event; the record is the one
returned to the caller. -/
theorem addModule_success_spec (env : NetEnv) (fid fb url dir : String)
    (l : List ScrapingModule) (m : ScrapingModule)
    (h : (addModule env fid fb url dir l).res = .ok m) :
    (addModule env fid fb url dir l).modules = l ++ [m] ∧
    m.id = fid ∧ m.localPath = fb ++ ".js" ∧ m.metadataURL = url ∧
    m.isActive = false ∧
    (∃ md, env.fetchMeta url = some (some md) ∧ m.metadata = md) ∧
    (addModule env fid fb url dir l).trace.getLast? = some Ev.save := by
  rcases addModule_ok_inv env fid fb url dir l m h with
    ⟨hany, md, bytes, hm, hs, hw, hmod, hmods, htr⟩
  subst hmod
  exact ⟨hmods, rfl, rfl, rfl, rfl, ⟨md, hm, rfl⟩, by rw [htr]; rfl⟩

/-- Witness for C2 on a concrete successful Add into the empty list. -/
theorem addModule_success_spec_witness :
    (addModule envA "idN" "ffff" "http://y/meta" "d" []).res =
      Except.ok (⟨"idN", mdA, "ffff.js", "http://y/meta", false⟩ : ScrapingModule) ∧
    ((addModule envA "idN" "ffff" "http://y/meta" "d" []).modules =
      [] ++ [(⟨"idN", mdA, "ffff.js", "http://y/meta", false⟩ : ScrapingModule)] ∧
     (⟨"idN", mdA, "ffff.js", "http://y/meta", false⟩ : ScrapingModule).id = "idN" ∧
     (⟨"idN", mdA, "ffff.js", "http://y/meta", false⟩ : ScrapingModule).localPath = "ffff" ++ ".js" ∧
     (⟨"idN", mdA, "ffff.js", "http://y/meta", false⟩ : ScrapingModule).metadataURL = "http://y/meta" ∧
     (⟨"idN", mdA, "ffff.js", "http://y/meta", false⟩ : ScrapingModule).isActive = false ∧
     (∃ md, envA.fetchMeta "http://y/meta" = some (some md) ∧
        (⟨"idN", mdA, "ffff.js", "http://y/meta", false⟩ : ScrapingModule).metadata = md) ∧
     (addModule envA "idN" "ffff" "http://y/meta" "d" []).trace.getLast? = some Ev.save) :=
  ⟨rfl, addModule_success_spec envA "idN" "ffff" "http://y/meta" "d" [] _ rfl⟩

/-- C3: whenever Add returns an error — duplicate URL, metadata fetch or
decode failure, script fetch or read failure, or script write failure —
the in-memory list is exactly what it was before the call, and no Save
persistence event occurs. -/
theorem addModule_failure_atomic (env : NetEnv) (fid fb url dir : String)
    (l : List ScrapingModule) (e : AddErr)
    (h : (addModule env fid fb url dir l).res = .error e) :
    (addModule env fid fb url dir l).modules = l ∧
    Ev.save ∉ (addModule env fid fb url dir l).trace := by
  rcases addModule_cases env fid fb url dir l with
    ⟨_, heq⟩ | ⟨_, _, hmods, hns⟩ | ⟨_, m, hm, _, _⟩
  · rw [heq]; exact ⟨rfl, by simp⟩
  · exact ⟨hmods, hns⟩
  · exact absurd (hm.symm.trans h) (by simp)

/-- Witness for C3: a transport failure on the metadata fetch leaves the
one-record list unchanged. -/
theorem addModule_failure_atomic_witness :
    (addModule envDown "i" "f" "u" "d" [modA]).res = .error .fetchErr ∧
    (addModule envDown "i" "f" "u" "d" [modA]).modules = [modA] ∧
    Ev.save ∉ (addModule envDown "i" "f" "u" "d" [modA]).trace :=
  ⟨rfl, addModule_failure_atomic envDown "i" "f" "u" "d" [modA] .fetchErr rfl⟩

lemma refreshStep_success (env : NetEnv) (dir : String) (m : ScrapingModule)
    (md : ModuleMetadata) (bytes : Script)
    (hm : env.fetchMeta m.metadataURL = some (some md))
    (hv : md.version ≠ m.metadata.version)
    (hs : env.fetchScript md.scriptURL = some (some bytes))
    (hw : env.writeOk (joinPath dir m.localPath) = true) :
    refreshStep env dir m =
      ({ m with metadata := md },
       [.fetchMeta m.metadataURL, .fetchScript md.scriptURL,
        .writeFile (joinPath dir m.localPath) bytes true]) := by
  simp [refreshStep, hm, hv, hs, hw]

lemma refreshStep_fail_fst (env : NetEnv) (dir : String) (m : ScrapingModule)
    (md : ModuleMetadata)
    (hm : env.fetchMeta m.metadataURL = some (some md))
    (hv : md.version ≠ m.metadata.version)
    (hfail : env.fetchScript md.scriptURL = none ∨
             env.fetchScript md.scriptURL = some none ∨
             env.writeOk (joinPath dir m.localPath) = false) :
    (refreshStep env dir m).1 = m := by
  rcases hfail with hs | hs | hw
  · simp [refreshStep, hm, hv, hs]
  · simp [refreshStep, hm, hv, hs]
  · cases hs : env.fetchScript md.scriptURL with
    | none => simp [refreshStep, hm, hv, hs]
    | some o =>
      cases o with
      | none => simp [refreshStep, hm, hv, hs]
      | some bytes => simp [refreshStep, hm, hv, hs, hw]

lemma refreshStep_skip (env : NetEnv) (dir : String) (m : ScrapingModule)
    (md : ModuleMetadata)
    (hm : env.fetchMeta m.metadataURL = some (some md))
    (hv : md.version = m.metadata.version) :
    refreshStep env dir m = (m, [Ev.fetchMeta m.metadataURL]) := by
  simp [refreshStep, hm, hv]

/-- C5: Refresh never adds or removes records (its return carries no
per-record error by type): for every environment the output list has the
same length, its record at every position is the refreshStep image of the
input record at that position, every refreshStep output agrees with its
input on all fields except possibly metadata, and Refresh performs
exactly one Save persistence event, as the last event of the call. -/
theorem refreshModules_frame (env : NetEnv) (dir : String)
    (l : List ScrapingModule) :
    (refreshModules env dir l).1.length = l.length ∧
    (∀ (i : Nat), (refreshModules env dir l).1[i]? =
       (l[i]?).map (fun m => (refreshStep env dir m).1)) ∧
    (∀ m, (refreshStep env dir m).1 =
       { m with metadata := (refreshStep env dir m).1.metadata }) ∧
    ((refreshModules env dir l).2.count Ev.save = 1) ∧
    ((refreshModules env dir l).2.getLast? = some Ev.save) := by
  refine ⟨?_, ?_, refreshStep_fst env dir, refreshModules_save_count env dir l,
    refreshModules_last env dir l⟩
  · rw [refreshModules_fst]
    exact List.length_map _ _
  · intro i
    rw [refreshModules_fst]
    simp

/-- C6: for a record whose freshly fetched metadata has a different
version string, a successful script fetch and file write make Refresh
replace that record's metadata wholesale (identifier, localPath, URL and
flag unchanged) and write the fetched bytes over the file at the record's
existing localPath; a failed script fetch or file write leaves the record
— including its metadata and version — untouched. -/
theorem refreshModules_update (env : NetEnv) (dir : String)
    (l : List ScrapingModule) (i : Nat) (m : ScrapingModule) (md : ModuleMetadata)
    (hl : l[i]? = some m)
    (hm : env.fetchMeta m.metadataURL = some (some md))
    (hv : md.version ≠ m.metadata.version) :
    (∀ bytes, env.fetchScript md.scriptURL = some (some bytes) →
       env.writeOk (joinPath dir m.localPath) = true →
       (refreshModules env dir l).1[i]? = some { m with metadata := md } ∧
       Ev.writeFile (joinPath dir m.localPath) bytes true ∈
         (refreshModules env dir l).2) ∧
    ((env.fetchScript md.scriptURL = none ∨
      env.fetchScript md.scriptURL = some none ∨
      env.writeOk (joinPath dir m.localPath) = false) →
     (refreshModules env dir l).1[i]? = some m) := by
  have hpt : (refreshModules env dir l).1[i]? =
      (l[i]?).map (fun x => (refreshStep env dir x).1) := by
    rw [refreshModules_fst]
    exact List.getElem?_map _ _ _
  constructor
  · intro bytes hs hw
    have hstep := refreshStep_success env dir m md bytes hm hv hs hw
    constructor
    · rw [hpt, hl]
      simp [hstep]
    · have hmem : m ∈ l := by
        have := List.getElem?_eq_some_iff.mp hl
        rcases this with ⟨hi, hg⟩
        exact hg ▸ List.getElem_mem hi
      have htr : (refreshStep env dir m).2 ∈
          List.map (Prod.snd ∘ refreshStep env dir) l := by
        have := List.mem_map_of_mem (Prod.snd ∘ refreshStep env dir) hmem
        simpa using this
      have hin : Ev.writeFile (joinPath dir m.localPath) bytes true ∈
          (refreshStep env dir m).2 := by
        rw [hstep]
        simp
      have hfl : Ev.writeFile (joinPath dir m.localPath) bytes true ∈
          (List.map (Prod.snd ∘ refreshStep env dir) l).flatten :=
        List.mem_flatten.mpr ⟨(refreshStep env dir m).2, htr, hin⟩
      have : (refreshModules env dir l).2 =
          (List.map (Prod.snd ∘ refreshStep env dir) l).flatten ++ [Ev.save] := by
        simp [refreshModules, List.map_map]
      rw [this]
      exact List.mem_append.mpr (Or.inl hfl)
  · intro hfail
    rw [hpt, hl]
    simp [refreshStep_fail_fst env dir m md hm hv hfail]

/-- Witness for C6 on a concrete version bump from "1" to "2". -/
theorem refreshModules_update_witness :
    ([modA][0]? = some modA) ∧
    (envA2.fetchMeta modA.metadataURL = some (some mdA2)) ∧
    (mdA2.version ≠ modA.metadata.version) ∧
    (envA2.fetchScript mdA2.scriptURL = some (some [7])) ∧
    (envA2.writeOk (joinPath "d" modA.localPath) = true) ∧
    ((refreshModules envA2 "d" [modA]).1[0]? = some { modA with metadata := mdA2 } ∧
     Ev.writeFile (joinPath "d" modA.localPath) [7] true ∈
       (refreshModules envA2 "d" [modA]).2) := by
  refine ⟨rfl, rfl, by decide, rfl, rfl, ?_⟩
  exact (refreshModules_update envA2 "d" [modA] 0 modA mdA2 rfl rfl (by decide)).1
    [7] rfl rfl

/-- C7: a record whose fetched metadata version equals its stored version
is skipped — its refreshStep performs no script fetch, no write, and no
change to the record; and when every record's remote version is
unchanged, Refresh leaves the whole list identical, performs no script
fetch and no file write, and a second Refresh against the same remote
responses returns exactly the same result. -/
theorem refreshModules_idempotent :
    (∀ (env : NetEnv) (dir : String) (m : ScrapingModule) (md : ModuleMetadata),
       env.fetchMeta m.metadataURL = some (some md) →
       md.version = m.metadata.version →
       refreshStep env dir m = (m, [Ev.fetchMeta m.metadataURL])) ∧
    (∀ (env : NetEnv) (dir : String) (l : List ScrapingModule),
       (∀ m ∈ l, ∃ md, env.fetchMeta m.metadataURL = some (some md) ∧
          md.version = m.metadata.version) →
       (refreshModules env dir l).1 = l ∧
       (∀ p b ok, Ev.writeFile p b ok ∉ (refreshModules env dir l).2) ∧
       (∀ u, Ev.fetchScript u ∉ (refreshModules env dir l).2) ∧
       refreshModules env dir ((refreshModules env dir l).1) =
         refreshModules env dir l) := by
  refine ⟨fun env dir m md hm hv => refreshStep_skip env dir m md hm hv, ?_⟩
  intro env dir l h
  have hstep : ∀ m ∈ l, refreshStep env dir m = (m, [Ev.fetchMeta m.metadataURL]) := by
    intro m hm0
    rcases h m hm0 with ⟨md, h1, h2⟩
    exact refreshStep_skip env dir m md h1 h2
  have hfst : (refreshModules env dir l).1 = l := by
    rw [refreshModules_fst]
    have : l.map (fun m => (refreshStep env dir m).1) = l.map id := by
      apply List.map_congr_left
      intro a ha
      rw [hstep a ha]
      rfl
    rw [this, List.map_id]
  have htr : (refreshModules env dir l).2 =
      (List.map (Prod.snd ∘ refreshStep env dir) l).flatten ++ [Ev.save] := by
    simp [refreshModules, List.map_map]
  have hflat : ∀ e ∈ (List.map (Prod.snd ∘ refreshStep env dir) l).flatten,
      ∃ u, e = Ev.fetchMeta u := by
    intro e he
    rcases List.mem_flatten.mp he with ⟨tr, htr0, hin⟩
    rcases List.mem_map.mp htr0 with ⟨m, hm0, rfl⟩
    have h2 : (refreshStep env dir m).2 = [Ev.fetchMeta m.metadataURL] :=
      congrArg Prod.snd (hstep m hm0)
    simp only [Function.comp] at hin
    rw [h2] at hin
    rcases List.mem_singleton.mp hin with rfl
    exact ⟨m.metadataURL, rfl⟩
  refine ⟨hfst, ?_, ?_, by rw [hfst]⟩
  · intro p b ok hmem
    rw [htr] at hmem
    rcases List.mem_append.mp hmem with hf | hsv
    · rcases hflat _ hf with ⟨u, hu⟩
      cases hu
    · simp at hsv
  · intro u0 hmem
    rw [htr] at hmem
    rcases List.mem_append.mp hmem with hf | hsv
    · rcases hflat _ hf with ⟨u, hu⟩
      cases hu
    · simp at hsv

/-- Witness for C7 with an unchanged remote version "1". -/
theorem refreshModules_idempotent_witness :
    (envA.fetchMeta modA.metadataURL = some (some mdA) ∧
     mdA.version = modA.metadata.version ∧
     refreshStep envA "d" modA = (modA, [Ev.fetchMeta modA.metadataURL])) ∧
    ((∀ m ∈ [modA], ∃ md, envA.fetchMeta m.metadataURL = some (some md) ∧
        md.version = m.metadata.version) ∧
     (refreshModules envA "d" [modA]).1 = [modA] ∧
     refreshModules envA "d" ((refreshModules envA "d" [modA]).1) =
       refreshModules envA "d" [modA]) := by
  have hmem : ∀ m ∈ [modA], ∃ md, envA.fetchMeta m.metadataURL = some (some md) ∧
      md.version = m.metadata.version := by
    intro m hm
    rcases List.mem_singleton.mp hm with rfl
    exact ⟨mdA, rfl, rfl⟩
  have h2 := refreshModules_idempotent.2 envA "d" [modA] hmem
  exact ⟨⟨rfl, rfl, refreshModules_idempotent.1 envA "d" modA mdA rfl rfl⟩,
    hmem, h2.1, h2.2.2.2⟩

end Sorago
